import Mathlib

/-!
Verification development for the vidtty terminal video player/converter
(src/vidtty.c). The definitions below are a shallow embedding of the
VIDTXT format codec, the custom AVIO read adapter, the video-to-ASCII
glyph mapping, the persist-audio FIFO pipeline, the draw-error handling
of the two frame loops, and the dispatcher routing. Machine integers are
modelled as Nat with explicit wrap-around where the C code can overflow;
the IEEE-754 double fields are modelled by their 64-bit patterns with an
exact rational semantics for the few comparisons the code performs.
-/

namespace Vidtty

/-! ## Byte-level helpers -/

/-- Big-endian value of a byte list (first byte is most significant),
as computed by `be32toh`/`be64toh` on values `fread` stored in memory. -/
def beOfBytes (bs : List ℕ) : ℕ := bs.foldl (fun acc b => acc * 256 + b) 0

/-- Little-endian value of a byte list: how the same memory bytes are
seen when a field is used unconverted on a little-endian host. -/
def leOfBytes (bs : List ℕ) : ℕ := beOfBytes bs.reverse

/-- The 4 bytes written by `htobe32 n` (n reduced mod 2^32). -/
def be32Bytes (n : ℕ) : List ℕ :=
  [n / 2 ^ 24 % 256, n / 2 ^ 16 % 256, n / 2 ^ 8 % 256, n % 256]

/-- The 8 bytes written by `htobe64 n` (n reduced mod 2^64). -/
def be64Bytes (n : ℕ) : List ℕ :=
  [n / 2 ^ 56 % 256, n / 2 ^ 48 % 256, n / 2 ^ 40 % 256, n / 2 ^ 32 % 256,
   n / 2 ^ 24 % 256, n / 2 ^ 16 % 256, n / 2 ^ 8 % 256, n % 256]

/-- Zero-pad a byte list on the right to 8 bytes: the tail of a
zero-initialised `uint64_t` that `fread` only partially filled. -/
def padTo8 (bs : List ℕ) : List ℕ := bs ++ List.replicate (8 - bs.length) 0

/-- Bytes `off .. off+len-1` of a file, as read by `fread` after `fseek`. -/
def readBytes (bytes : List ℕ) (off len : ℕ) : List ℕ :=
  (bytes.drop off).take len

/-- Wrapping subtraction on `uint64_t` values. -/
def u64sub (a b : ℕ) : ℕ := (2 ^ 64 + a % 2 ^ 64 - b % 2 ^ 64) % 2 ^ 64

theorem beOfBytes_be32Bytes (n : ℕ) : beOfBytes (be32Bytes n) = n % 2 ^ 32 := by
  simp only [beOfBytes, be32Bytes, List.foldl]
  omega

theorem beOfBytes_be64Bytes (n : ℕ) : beOfBytes (be64Bytes n) = n % 2 ^ 64 := by
  simp only [beOfBytes, be64Bytes, List.foldl]
  omega

/-! ## binary64 bit patterns

The parser's framerate handling performs exactly three operations on
doubles: `new_fps >= 0`, `1 / new_fps != INFINITY`, and `fps < 0`. We
model a double by the Nat value of its 64-bit pattern and give those
three operations their exact IEEE-754 semantics (round to nearest, ties
to even; a quotient overflows to +infinity iff its exact value is at
least 2^1024 - 2^970). -/

def f64sign (p : ℕ) : ℕ := p / 2 ^ 63 % 2
def f64exp (p : ℕ) : ℕ := p / 2 ^ 52 % 2 ^ 11
def f64frac (p : ℕ) : ℕ := p % 2 ^ 52

def f64isNaN (p : ℕ) : Bool := f64exp p == 2047 && f64frac p != 0
def f64isFinite (p : ℕ) : Bool := f64exp p != 2047
def f64isZero (p : ℕ) : Bool := f64exp p == 0 && f64frac p == 0

/-- Magnitude of a finite pattern: subnormals are `frac * 2^-1074`,
normals `(2^52 + frac) * 2^(exp - 1075)` (junk for exp field 2047). -/
def f64mag (p : ℕ) : ℚ :=
  if f64exp p = 0 then (f64frac p : ℚ) / 2 ^ 1074
  else ((2 ^ 52 + f64frac p : ℕ) : ℚ) * 2 ^ f64exp p / 2 ^ 1075

/-- Exact rational value of a finite pattern (junk for exp field 2047). -/
def f64finiteVal (p : ℕ) : ℚ :=
  if f64sign p = 0 then f64mag p else -f64mag p

/-- C comparison `x >= 0` on the double with pattern `p`
(false for NaN, true for +inf and for both zeroes). A finite double is
≥ 0 iff its sign bit is clear or it is a zero; `f64ge0_eq_val` below
proves this form equal to the comparison on the exact value. -/
def f64ge0 (p : ℕ) : Bool :=
  if f64isNaN p then false
  else if f64isFinite p then f64sign p == 0 || f64isZero p
  else f64sign p == 0

/-- C comparison `x < 0` on the double with pattern `p`
(false for NaN and -0.0, true for -inf). A finite double is < 0 iff its
sign bit is set and it is not a zero; `f64lt0_eq_val` below proves this
form equal to the comparison on the exact value. -/
def f64lt0 (p : ℕ) : Bool :=
  if f64isNaN p then false
  else if f64isFinite p then f64sign p == 1 && !f64isZero p
  else f64sign p == 1

/-- C expression `1 / x == INFINITY` on the double with pattern `p`:
true for +0.0 (1/+0 = +inf) and for finite positive values whose exact
reciprocal reaches the +infinity rounding threshold 2^1024 - 2^970
(round to nearest, ties to even); false for NaN, the infinities, -0.0
and all negative values. For a finite non-zero pattern the reciprocal
reaches the threshold exactly when the value is positive subnormal with
fraction at most 2^50; `f64recipIsPosInf_eq_val` below proves this form
equal to the threshold condition on the exact value. -/
def f64recipIsPosInf (p : ℕ) : Bool :=
  if f64isNaN p then false
  else if !f64isFinite p then false
  else if f64isZero p then f64sign p == 0
  else f64sign p == 0 && f64exp p == 0 && decide (f64frac p ≤ 2 ^ 50)

/-- A finite, strictly positive double: sign bit clear, exponent field
below 2047, pattern not a zero. -/
def f64finPos (p : ℕ) : Bool :=
  f64isFinite p && f64sign p == 0 && !f64isZero p

/-- The parser's acceptance test for the big-endian fps interpretation:
`new_fps >= 0 && 1/new_fps != INFINITY`. -/
def fpsBeValid (p : ℕ) : Bool := f64ge0 p && !f64recipIsPosInf p

theorem f64sign_cases (p : ℕ) : f64sign p = 0 ∨ f64sign p = 1 :=
  Nat.mod_two_eq_zero_or_one _

theorem f64mag_nonneg (p : ℕ) : 0 ≤ f64mag p := by
  unfold f64mag
  split <;> positivity

theorem f64mag_eq_zero (p : ℕ) (h : f64isZero p = true) : f64mag p = 0 := by
  simp only [f64isZero, Bool.and_eq_true, beq_iff_eq] at h
  simp [f64mag, h.1, h.2]

theorem f64mag_pos (p : ℕ) (h : f64isZero p = false) : 0 < f64mag p := by
  simp only [f64isZero, Bool.and_eq_false_iff, beq_eq_false_iff_ne, ne_eq] at h
  unfold f64mag
  by_cases he : f64exp p = 0
  · have hf : f64frac p ≠ 0 := by tauto
    have : (0 : ℚ) < (f64frac p : ℚ) := by positivity
    simp only [he, if_true]
    positivity
  · simp only [he, if_false]
    positivity

/-- The integer form of `f64ge0` agrees with `0 ≤` on the exact value. -/
theorem f64ge0_eq_val (p : ℕ) (h : f64isFinite p = true) :
    f64ge0 p = decide (0 ≤ f64finiteVal p) := by
  have hn : f64isNaN p = false := by
    simp only [f64isFinite, bne_iff_ne, ne_eq] at h
    simp [f64isNaN, h]
  rcases f64sign_cases p with hs | hs
  · simp [f64ge0, hn, h, hs, f64finiteVal, f64mag_nonneg]
  · have hval : f64finiteVal p = -f64mag p := by simp [f64finiteVal, hs]
    cases hz : f64isZero p
    · have hm := f64mag_pos p hz
      have hd : ¬ (0 ≤ f64finiteVal p) := by rw [hval]; push_neg; linarith
      simp [f64ge0, hn, h, hs, hz, hd]
    · have hm := f64mag_eq_zero p hz
      have hd : (0 : ℚ) ≤ f64finiteVal p := by rw [hval, hm]; norm_num
      simp [f64ge0, hn, h, hs, hz, hd]

/-- The integer form of `f64lt0` agrees with `< 0` on the exact value. -/
theorem f64lt0_eq_val (p : ℕ) (h : f64isFinite p = true) :
    f64lt0 p = decide (f64finiteVal p < 0) := by
  have hn : f64isNaN p = false := by
    simp only [f64isFinite, bne_iff_ne, ne_eq] at h
    simp [f64isNaN, h]
  rcases f64sign_cases p with hs | hs
  · have hm := f64mag_nonneg p
    have hval : f64finiteVal p = f64mag p := by simp [f64finiteVal, hs]
    have hd : ¬ (f64finiteVal p < 0) := by rw [hval]; push_neg; linarith
    simp [f64lt0, hn, h, hs, hd]
  · have hval : f64finiteVal p = -f64mag p := by simp [f64finiteVal, hs]
    cases hz : f64isZero p
    · have hm := f64mag_pos p hz
      have hd : f64finiteVal p < 0 := by rw [hval]; linarith
      simp [f64lt0, hn, h, hs, hz, hd]
    · have hm := f64mag_eq_zero p hz
      have hd : ¬ (f64finiteVal p < 0) := by rw [hval, hm]; norm_num
      simp [f64lt0, hn, h, hs, hz, hd]

theorem recip_subnormal_iff (n : ℕ) (hn : 1 ≤ n) :
    ((2 ^ 1024 - 2 ^ 970 : ℚ) ≤ 1 / ((n : ℚ) / 2 ^ 1074)) ↔ n ≤ 2 ^ 50 := by
  have hnpos : (0 : ℚ) < (n : ℚ) := by exact_mod_cast hn
  have h1 : (1 : ℚ) / ((n : ℚ) / 2 ^ 1074) = 2 ^ 1074 / (n : ℚ) := by
    rw [one_div_div]
  rw [h1, le_div_iff₀ hnpos]
  constructor
  · intro hle
    by_contra hgt
    push_neg at hgt
    have h2 : ((2 ^ 50 + 1 : ℕ) : ℚ) ≤ (n : ℚ) := by exact_mod_cast hgt
    have h3 : (2 ^ 1024 - 2 ^ 970 : ℚ) * ((2 ^ 50 + 1 : ℕ) : ℚ) ≤
        (2 ^ 1024 - 2 ^ 970 : ℚ) * (n : ℚ) :=
      mul_le_mul_of_nonneg_left h2 (by norm_num)
    have h4 : (2 ^ 1074 : ℚ) < (2 ^ 1024 - 2 ^ 970 : ℚ) * ((2 ^ 50 + 1 : ℕ) : ℚ) := by
      push_cast
      norm_num
    linarith
  · intro hle
    have h2 : (n : ℚ) ≤ 2 ^ 50 := by exact_mod_cast hle
    have h3 : (2 ^ 1024 - 2 ^ 970 : ℚ) * (n : ℚ) ≤
        (2 ^ 1024 - 2 ^ 970 : ℚ) * 2 ^ 50 :=
      mul_le_mul_of_nonneg_left h2 (by norm_num)
    have h4 : (2 ^ 1024 - 2 ^ 970 : ℚ) * 2 ^ 50 ≤ 2 ^ 1074 := by norm_num
    linarith

theorem f64mag_normal_ge (p : ℕ) (he : f64exp p ≠ 0) :
    (2 ^ 52 * 2 / 2 ^ 1075 : ℚ) ≤ f64mag p := by
  unfold f64mag
  rw [if_neg he]
  have h1 : (2 ^ 52 : ℚ) ≤ ((2 ^ 52 + f64frac p : ℕ) : ℚ) := by
    have : (0 : ℚ) ≤ (f64frac p : ℚ) := Nat.cast_nonneg _
    push_cast
    linarith
  have h2 : (2 : ℚ) ≤ 2 ^ f64exp p := by
    calc (2 : ℚ) = 2 ^ 1 := (pow_one 2).symm
    _ ≤ 2 ^ f64exp p := pow_le_pow_right₀ (by norm_num) (by omega)
  have h3 : (2 ^ 52 * 2 : ℚ) ≤ ((2 ^ 52 + f64frac p : ℕ) : ℚ) * 2 ^ f64exp p :=
    mul_le_mul h1 h2 (by norm_num) (by positivity)
  exact div_le_div_of_nonneg_right h3 (by norm_num) |>.trans_eq rfl

theorem recip_normal_le (p : ℕ) (he : f64exp p ≠ 0) :
    1 / f64mag p ≤ (2 ^ 1022 : ℚ) := by
  have h0 : (0 : ℚ) < 2 ^ 52 * 2 / 2 ^ 1075 := by norm_num
  have h1 := f64mag_normal_ge p he
  calc 1 / f64mag p ≤ 1 / (2 ^ 52 * 2 / 2 ^ 1075 : ℚ) :=
        one_div_le_one_div_of_le h0 h1
  _ = 2 ^ 1022 := by norm_num

/-- The integer form of `f64recipIsPosInf` agrees with the exact
threshold condition on the value: for a finite non-zero pattern, `1/x`
rounds to +infinity exactly when `x` is positive and its exact
reciprocal is at least `2^1024 - 2^970`. -/
theorem f64recipIsPosInf_eq_val (p : ℕ) (h : f64isFinite p = true)
    (hz : f64isZero p = false) :
    f64recipIsPosInf p =
      decide (0 < f64finiteVal p ∧
        (2 ^ 1024 - 2 ^ 970 : ℚ) ≤ 1 / f64finiteVal p) := by
  have hn : f64isNaN p = false := by
    simp only [f64isFinite, bne_iff_ne, ne_eq] at h
    simp [f64isNaN, h]
  have hm := f64mag_pos p hz
  rcases f64sign_cases p with hs | hs
  · have hval : f64finiteVal p = f64mag p := by simp [f64finiteVal, hs]
    by_cases he : f64exp p = 0
    · have hfr : 1 ≤ f64frac p := by
        simp only [f64isZero, Bool.and_eq_false_iff, beq_eq_false_iff_ne,
          ne_eq] at hz
        rcases hz with h1 | h1
        · exact absurd he h1
        · omega
      have hmageq : f64mag p = (f64frac p : ℚ) / 2 ^ 1074 := by
        simp [f64mag, he]
      have lhs_eq : f64recipIsPosInf p = decide (f64frac p ≤ 2 ^ 50) := by
        simp [f64recipIsPosInf, hn, h, hz, hs, he]
      rw [lhs_eq, decide_eq_decide, hval, hmageq]
      constructor
      · intro hfr50
        have hnpos : (0 : ℚ) < (f64frac p : ℚ) := by exact_mod_cast hfr
        exact ⟨by positivity, (recip_subnormal_iff _ hfr).mpr hfr50⟩
      · intro hand
        exact (recip_subnormal_iff _ hfr).mp hand.2
    · have hnot : ¬ ((2 ^ 1024 - 2 ^ 970 : ℚ) ≤ 1 / f64finiteVal p) := by
        rw [hval]
        intro hcon
        have h1 := recip_normal_le p he
        have h2 : (2 ^ 1022 : ℚ) < 2 ^ 1024 - 2 ^ 970 := by norm_num
        linarith
      have lhs_eq : f64recipIsPosInf p = false := by
        simp [f64recipIsPosInf, hn, h, hz, hs, he]
      have rhs_eq : decide (0 < f64finiteVal p ∧
          (2 ^ 1024 - 2 ^ 970 : ℚ) ≤ 1 / f64finiteVal p) = false := by
        simp only [decide_eq_false_iff_not]
        intro hand
        exact hnot hand.2
      rw [lhs_eq, rhs_eq]
  · have hval : f64finiteVal p = -f64mag p := by simp [f64finiteVal, hs]
    have hneg : ¬ (0 < f64finiteVal p) := by rw [hval]; push_neg; linarith
    simp [f64recipIsPosInf, hn, h, hz, hs, hneg]

/-! ## Video-to-ASCII glyph mapping (dump_frames / render_frames)

`ascii_gradients` is the byte content of the C string literal
`" .'`^\",:;Il!i><~+_-?][}{1)(|\\/tfjrxnuvczXYUJCLQ0OZmwqpdbkhao*#MW&8%B@$"`;
`ascii_size = sizeof(ascii_gradients) - 1` counts its characters. -/

def ascii_gradients : List ℕ :=
  [32, 46, 39, 96, 94, 34, 44, 58, 59, 73, 108, 33, 105, 62, 60, 126, 43, 95,
   45, 63, 93, 91, 125, 123, 49, 41, 40, 124, 92, 47, 116, 102, 106, 114, 120,
   110, 117, 118, 99, 122, 88, 89, 85, 74, 67, 76, 81, 48, 79, 90, 109, 119,
   113, 112, 100, 98, 107, 104, 97, 111, 42, 35, 77, 87, 38, 56, 37, 66, 64, 36]

def ascii_size : ℕ := ascii_gradients.length

/-- `gradient_idx = (gradient * (ascii_size - 1)) / 255` for an 8-bit
luma value, exactly as both pipelines compute it. -/
def gradient_index (y : ℕ) : ℕ := y * (ascii_size - 1) / 255

/-! ## VIDTXT format codec -/

def VIDTXT_HEADER_SIZE : ℕ := 64
def VID_METADATA_START : ℕ := 8

/-- `0x5649445458540000`, the value `be64toh(sig_value)` must equal. -/
def VIDTXT_MAGIC : ℕ := 0x5649445458540000

/-- The first six file bytes of a VIDTXT file. -/
def magicBytes : List ℕ := [0x56, 0x49, 0x44, 0x54, 0x58, 0x54]

/-- Truncation toward zero of a rational, as C's `fmod` divides. -/
def ratTrunc (q : ℚ) : ℤ := if 0 ≤ q then ⌊q⌋ else -⌊-q⌋

/-- C `fmod x y = x - y * trunc (x / y)`, in exact arithmetic. -/
def cFmod (x y : ℚ) : ℚ := x - y * (ratTrunc (x / y) : ℚ)

/-- Exact-arithmetic value of the parser's duration expression
`floor(total_frames / fps) + fmod(total_frames, fps) / fps`, for a
finite fps pattern. -/
def durationOf (total_frames : ℕ) (fpsBits : ℕ) : ℚ :=
  let f := f64finiteVal fpsBits
  ((⌊(total_frames : ℚ) / f⌋ : ℤ) : ℚ) + cFmod (total_frames : ℚ) f / f

/-- The runtime descriptor built by `new_vidtxt_info`. The `FILE *fp`
handle is modelled by passing the file's bytes and cursor explicitly;
the `fps` double field is carried as its 64-bit pattern `fpsBits`, and
`duration` as the exact rational value of the C double expression. -/
structure VIDTXTInfo where
  file_size : ℕ
  columns : ℕ
  lines : ℕ
  fpsBits : ℕ
  audio_size : ℕ
  print_columns : ℕ
  print_lines : ℕ
  total_frames : ℕ
  duration : ℚ
deriving Repr, DecidableEq

/-- `new_vidtxt_info`: parse a VIDTXT header from a file whose bytes are
`bytes` and whose cursor is at `pos0`. Returns the descriptor together
with the final cursor position, or `none` on any of the function's error
returns. Step by step from the source:
the `ftell(fp) != 0` precondition check; `fread` of 6 bytes into a
zero-initialised `uint64_t` compared via `be64toh` against the magic;
`fseek` to offset 8; four `fread`s totalling 32 bytes (`total_reads != 4`
fails exactly when the file is shorter than 32 bytes); `be32toh` /
`be64toh` conversions; the fps acceptance test
`new_fps >= 0 && 1/new_fps != INFINITY` with fallback to the
little-endian interpretation of the same eight bytes, then `fps < 0`
rejection; `fstat` for the size; the `columns <= 1 || lines <= 1` check;
the `total_frames` and `duration` arithmetic (`file_size - 64 -
audio_size` in wrapping `uint64_t`, divided by the `uint32_t` product
`print_columns * print_lines`; when that product is ≡ 0 mod 2^32 the C
program traps on division by zero, a case Nat division renders as 0 and
which every theorem below excludes by hypothesis); final `fseek` to 64. -/
def new_vidtxt_info (pos0 : ℕ) (bytes : List ℕ) : Option (VIDTXTInfo × ℕ) :=
  if pos0 ≠ 0 then none
  else
    let sig_value := beOfBytes (padTo8 (bytes.take 6))
    if sig_value ≠ VIDTXT_MAGIC then none
    else if bytes.length < 32 then none
    else
      let columns := beOfBytes (readBytes bytes 8 4)
      let lines := beOfBytes (readBytes bytes 12 4)
      let beBits := beOfBytes (readBytes bytes 16 8)
      let leBits := leOfBytes (readBytes bytes 16 8)
      let audio_size := beOfBytes (readBytes bytes 24 8)
      let fpsBits := if fpsBeValid beBits then beBits else leBits
      if f64lt0 fpsBits then none
      else
        let file_size := bytes.length
        if columns ≤ 1 ∨ lines ≤ 1 then none
        else
          let print_columns := columns - 1
          let print_lines := lines - 1
          let total_frames :=
            u64sub (u64sub file_size VIDTXT_HEADER_SIZE) audio_size /
              (print_columns * print_lines % 2 ^ 32)
          some ({ file_size := file_size, columns := columns, lines := lines,
                  fpsBits := fpsBits, audio_size := audio_size,
                  print_columns := print_columns, print_lines := print_lines,
                  total_frames := total_frames,
                  duration := durationOf total_frames fpsBits },
                VIDTXT_HEADER_SIZE)

/-- The 64 header bytes `dump_frames` writes: the 8-byte
`char signature[] = "VIDTXT\0"` (six magic bytes plus two NULs),
`htobe32` columns and lines, the fps double's bit pattern through
`htobe64`, `htobe64` audio_size, then 32 NUL bytes. -/
def dump_header (columns lines fpsBits audio_size : ℕ) : List ℕ :=
  magicBytes ++ [0, 0] ++ be32Bytes columns ++ be32Bytes lines ++
    be64Bytes fpsBits ++ be64Bytes audio_size ++ List.replicate 32 0

/-- Parsing a file that starts with an encoder-written header: the
closed form of `new_vidtxt_info` on `dump_header c l f a ++ body`. -/
theorem new_vidtxt_info_dump_header (c l f a : ℕ) (body : List ℕ)
    (hc1 : 2 ≤ c) (hc2 : c < 2 ^ 32) (hl1 : 2 ≤ l) (hl2 : l < 2 ^ 32)
    (hf : f < 2 ^ 64) (ha : a < 2 ^ 64) :
    new_vidtxt_info 0 (dump_header c l f a ++ body) =
      (if f64lt0 (if fpsBeValid f then f else leOfBytes (be64Bytes f)) then none
       else some ({ file_size := body.length + 64, columns := c, lines := l,
                    fpsBits := if fpsBeValid f then f else leOfBytes (be64Bytes f),
                    audio_size := a,
                    print_columns := c - 1, print_lines := l - 1,
                    total_frames := u64sub (u64sub (body.length + 64) 64) a /
                      ((c - 1) * (l - 1) % 2 ^ 32),
                    duration := durationOf (u64sub (u64sub (body.length + 64) 64) a /
                      ((c - 1) * (l - 1) % 2 ^ 32))
                      (if fpsBeValid f then f else leOfBytes (be64Bytes f)) },
                  64)) := by
  have hsig : beOfBytes (padTo8 ((dump_header c l f a ++ body).take 6)) =
      VIDTXT_MAGIC := rfl
  have hlen : (dump_header c l f a ++ body).length = body.length + 64 := rfl
  have hcols : beOfBytes (readBytes (dump_header c l f a ++ body) 8 4) = c := by
    show beOfBytes (be32Bytes c) = c
    rw [beOfBytes_be32Bytes, Nat.mod_eq_of_lt hc2]
  have hlines : beOfBytes (readBytes (dump_header c l f a ++ body) 12 4) = l := by
    show beOfBytes (be32Bytes l) = l
    rw [beOfBytes_be32Bytes, Nat.mod_eq_of_lt hl2]
  have hbe : beOfBytes (readBytes (dump_header c l f a ++ body) 16 8) = f := by
    show beOfBytes (be64Bytes f) = f
    rw [beOfBytes_be64Bytes, Nat.mod_eq_of_lt hf]
  have hle2 : leOfBytes (readBytes (dump_header c l f a ++ body) 16 8) =
      leOfBytes (be64Bytes f) := rfl
  have haud : beOfBytes (readBytes (dump_header c l f a ++ body) 24 8) = a := by
    show beOfBytes (be64Bytes a) = a
    rw [beOfBytes_be64Bytes, Nat.mod_eq_of_lt ha]
  have h1 : ¬ ((dump_header c l f a ++ body).length < 32) := by rw [hlen]; omega
  have h2 : ¬ (c ≤ 1 ∨ l ≤ 1) := by omega
  simp only [new_vidtxt_info, hsig, hcols, hlines, hbe, hle2, haud, hlen,
    VIDTXT_HEADER_SIZE, ne_eq, not_true_eq_false, if_false, h1, h2,
    not_false_eq_true, if_true, ite_not]
  simp [h2]

/-! ## Custom I/O adapter (avio_custom_read)

The `FILE *` state is the file's byte count `file_len` and cursor `pos`;
`audio_size` comes from the descriptor passed through `opaque`;
`buffer_size` is the nonnegative `int` request made by the media
framework. `int32cast` narrows a value into an `int32_t` as the
assignments to `current_position` and `buffer_size` do; `sizeTcast`
converts an `int` to the `size_t` that `fread` receives. -/

def int32cast (i : ℤ) : ℤ :=
  if i % 2 ^ 32 < 2 ^ 31 then i % 2 ^ 32 else i % 2 ^ 32 - 2 ^ 32

def sizeTcast (i : ℤ) : ℕ := (i % 2 ^ 64).toNat

inductive AvioResult where
  | errUnknown : AvioResult
  | eof : AvioResult
  | ok : ℕ → AvioResult
deriving Repr, DecidableEq

/-- The size `fread` is called with: `buffer_size`, clipped with
`uint64_t` arithmetic whenever `current_position + buffer_size` would
exceed `audio_size`, then narrowed through the `int` variable. -/
def avioClippedSize (audio_size cur req : ℕ) : ℕ :=
  if audio_size < cur + req then sizeTcast (int32cast (u64sub audio_size cur : ℤ))
  else req

/-- `avio_custom_read`: fails fast with `AVERROR_UNKNOWN` when the
cursor sits below the 64-byte header, clips the request to the audio
window, reads, and reports `AVERROR_EOF` when nothing was read or the
window is exhausted. -/
def avio_custom_read (audio_size file_len pos req : ℕ) : AvioResult :=
  let current_position : ℤ := int32cast ((pos : ℤ) - 64)
  if current_position < 0 then .errUnknown
  else
    let cur : ℕ := current_position.toNat
    let len : ℕ := min (avioClippedSize audio_size cur req) (file_len - pos)
    if len = 0 ∨ audio_size ≤ cur then .eof else .ok len

/-! ## Persist-audio FIFO pipeline (dump_frames)

The audio transcode of `dump_frames` pushes chunks of resampled samples
into an `AVAudioFifo` and, after every push, drains and encodes frames
of exactly `enc_frame_size` samples while at least that many are
buffered; this happens in the main demux loop, the decoder flush and the
resampler flush alike, so the chunks are modelled as one list of chunk
sizes. At the end the non-zero remainder, if smaller than a frame, is
padded with silence and the FIFO drained once more. -/

/-- `enc_frame_size`: the encoder's frame size with the conservative
fallback `if (enc_frame_size <= 0) enc_frame_size = 1152`. -/
def encFrameSize (raw : ℤ) : ℕ := if raw ≤ 0 then 1152 else raw.toNat

/-- One `while (av_audio_fifo_size(fifo) >= enc_frame_size)` drain loop:
emits the sample count of each frame sent to the encoder and returns the
remaining FIFO fill. The fuel argument bounds the iteration count; `fifo`
itself suffices because each iteration removes `fs ≥ 1` samples. -/
def drainLoopAux (fs : ℕ) : ℕ → ℕ → List ℕ × ℕ
  | 0, fifo => ([], fifo)
  | fuel + 1, fifo =>
    if fs ≤ fifo then
      let p := drainLoopAux fs fuel (fifo - fs)
      (fs :: p.1, p.2)
    else ([], fifo)

def drainLoop (fs fifo : ℕ) : List ℕ × ℕ := drainLoopAux fs fifo fifo

/-- `av_audio_fifo_write` of one resampled chunk followed by the drain
loop. -/
def processChunk (fs fifo chunk : ℕ) : List ℕ × ℕ := drainLoop fs (fifo + chunk)

/-- All three write-then-drain phases (demux loop, decoder flush,
resampler flush) over the stream of resampled chunk sizes. -/
def processChunks (fs : ℕ) : ℕ → List ℕ → List ℕ × ℕ
  | fifo, [] => ([], fifo)
  | fifo, chunk :: rest =>
    let p := processChunk fs fifo chunk
    let q := processChunks fs p.2 rest
    (p.1 ++ q.1, q.2)

/-- The final FIFO drain of `dump_frames`: a non-zero leftover smaller
than a frame is padded with `enc_frame_size - leftover` silent samples,
then full frames are drained as before. -/
def finalDrain (fs fifo : ℕ) : List ℕ × ℕ :=
  if 0 < fifo then
    if fifo < fs then drainLoop fs (fifo + (fs - fifo))
    else drainLoop fs fifo
  else ([], fifo)

/-- Sample counts of every frame the persist pipeline sends to the MP3
encoder, given the encoder's reported frame size and the resampled
chunk sizes. -/
def dumpAudioFrames (raw : ℤ) (chunks : List ℕ) : List ℕ :=
  let fs := encFrameSize raw
  let p := processChunks fs 0 chunks
  let q := finalDrain fs p.2
  p.1 ++ q.1

/-! ## Draw-error handling of the frame loops

`file_print_frames` and `render_frames` both keep an `int32_t
draw_errors` counter against `DRAW_ERROR_TOLERANCE`. On a frame whose
last draw failed they execute `draw_successful = 0; draw_errors++;
continue;`, which skips the `draw_errors >= DRAW_ERROR_TOLERANCE` check;
the check runs only on frames whose last draw succeeded. In
`file_print_frames` the row loop additionally runs `draw_errors = 0`
after every row iteration that leaves `draw_successful != ERR`. -/

def DRAW_ERROR_TOLERANCE : ℕ := 256

/-- Loop state shared by both frame loops: the current value of
`draw_successful` (`true` when not `ERR`), the `draw_errors` counter,
and whether the loop has taken the fatal `goto` exit. -/
structure DrawState where
  draw_successful : Bool
  draw_errors : ℕ
  fatal : Bool
deriving Repr, DecidableEq

def initDrawState : DrawState := ⟨true, 0, false⟩

/-- One playback frame's inputs: the row loop's draw results in order
(`none` when `line < curr_term_lines` fails and the row is not drawn),
and the debug-bar draw result when debug mode is on. -/
structure PfFrame where
  rows : List (Option Bool)
  bar : Option Bool

/-- The row loop of `file_print_frames`: each iteration may overwrite
`draw_successful`, then either breaks on `ERR` or zeroes `draw_errors`. -/
def pfRowLoop : Bool → ℕ → List (Option Bool) → Bool × ℕ
  | ds, de, [] => (ds, de)
  | ds, de, r :: rs =>
    let ds' := r.getD ds
    if ds' = false then (false, de) else pfRowLoop ds' 0 rs

/-- One iteration of the `while (ch_read)` frame loop of
`file_print_frames`: row loop, optional debug bar, then the
failing-frame `continue` path or the tolerance check. -/
def pfFrameStep (s : DrawState) (fr : PfFrame) : DrawState :=
  if s.fatal then s
  else
    let p := pfRowLoop s.draw_successful s.draw_errors fr.rows
    let ds2 := fr.bar.getD p.1
    if ds2 = false then ⟨true, p.2 + 1, false⟩
    else if DRAW_ERROR_TOLERANCE ≤ p.2 then ⟨ds2, p.2, true⟩
    else ⟨ds2, p.2, false⟩

def pfRun (s : DrawState) : List PfFrame → DrawState
  | [] => s
  | fr :: rest => pfRun (pfFrameStep s fr) rest

/-- One iteration of the frame loop of `render_frames`: the pixel loop
draws completed rows without inspecting errors, so only the last draw
result of the frame (rows, then optional debug bar) reaches the error
handling; `draw_errors` is never reset. `lastDraw = none` means no draw
happened this frame. -/
def rfFrameStep (s : DrawState) (lastDraw : Option Bool) : DrawState :=
  if s.fatal then s
  else
    let ds := lastDraw.getD s.draw_successful
    if ds = false then ⟨true, s.draw_errors + 1, false⟩
    else if DRAW_ERROR_TOLERANCE ≤ s.draw_errors then ⟨ds, s.draw_errors, true⟩
    else ⟨ds, s.draw_errors, false⟩

def rfRun (s : DrawState) : List (Option Bool) → DrawState
  | [] => s
  | d :: rest => rfRun (rfFrameStep s d) rest

/-! ## Dispatcher routing (main) -/

/-- `includes_match`: returns 1 when `match` occurs as a contiguous
substring of `string`. The C outer loop visits every index `idx` of
`string`; whenever at least `sizeof_match` characters end at `idx` the
inner loop compares that window to `match` and sets `matches` only after
all `sizeof_match` positions agreed (so an empty `match` never sets it). -/
def includes_match (s m : List ℕ) : ℕ :=
  if (List.range s.length).any (fun idx =>
      decide (m.length ≤ idx + 1) && decide (0 < m.length) &&
      decide ((s.drop (idx + 1 - m.length)).take m.length = m))
  then 1 else 0

/-- The byte values of the URL marker string `"://"`. -/
def urlMarker : List ℕ := [58, 47, 47]

/-- The dispatch targets reachable through `default_call`. -/
inductive VCall where
  | file_print_frames : VCall
  | render_frames : VCall
  | dump_frames : VCall
  | info_call : VCall
  | help_call : VCall
deriving Repr, DecidableEq

/-- The routing block at the end of `main`: only when `default_call` is
still `file_print_frames` (no subcommand flag changed it) is the path
tested for `"://"`; for a non-URL the first six file bytes are read into
a zero-initialised `uint64_t` (a URL skips the read, leaving 0) and the
call is switched to `render_frames` unless `be64toh` of that value is
the VIDTXT magic. -/
def mainRoute (default_call : VCall) (path : List ℕ) (first6 : List ℕ) : VCall :=
  if default_call = .file_print_frames then
    let is_url := includes_match path urlMarker
    let sig_value := if is_url = 1 then 0 else beOfBytes (padTo8 (first6.take 6))
    if is_url = 1 ∨ sig_value ≠ VIDTXT_MAGIC then .render_frames
    else .file_print_frames
  else default_call

/-! ## Supporting lemmas -/

theorem u64sub_of_le (a b : ℕ) (hb : b ≤ a) (ha : a < 2 ^ 64) :
    u64sub a b = a - b := by
  unfold u64sub
  omega

theorem u64sub_of_gt (a b : ℕ) (hb : a < b) (hbb : b < 2 ^ 64) :
    u64sub a b = 2 ^ 64 - (b - a) := by
  unfold u64sub
  omega

theorem f64ge0_of_finPos (p : ℕ) (h : f64finPos p = true) : f64ge0 p = true := by
  simp only [f64finPos, Bool.and_eq_true, beq_iff_eq, Bool.not_eq_true'] at h
  have hnan : f64isNaN p = false := by
    simp only [f64isFinite, bne_iff_ne, ne_eq] at h
    simp [f64isNaN, h.1.1]
  simp [f64ge0, hnan, h.1.1, h.1.2, f64isFinite]

theorem f64lt0_eq_false_of_ge0 (p : ℕ) (h : f64ge0 p = true) :
    f64lt0 p = false := by
  unfold f64ge0 at h
  unfold f64lt0
  rcases f64sign_cases p with hs | hs <;>
    split_ifs at h ⊢ <;> simp_all [hs]

/-! ## C4: glyph mapping -/

/-- C4 counterexample: the gradient alphabet of the source has 70
glyphs, not 69, the index is computed with multiplier
`ascii_size - 1 = 69`, and luma 255 maps to index 69, not 68, so the
claimed formula `Y * (69 - 1) / 255` and the claimed bounds are wrong. -/
theorem c4_counterexample :
    ascii_size = 70 ∧ gradient_index 255 = 69 ∧
    ¬ (gradient_index 255 ≤ 68) := by decide

/-- C4 (amended): for every 8-bit luma value Y, the gradient index
`Y * (ascii_size - 1) / 255 = Y * 69 / 255` is at most 69 and in bounds
for the fixed 70-glyph alphabet; Y = 0 maps to glyph index 0 (space,
byte 32) and Y = 255 maps to index 69 (the dollar sign, byte 36). -/
theorem c4_glyph_mapping (y : ℕ) (hy : y ≤ 255) :
    gradient_index y ≤ 69 ∧ gradient_index y < ascii_gradients.length ∧
    gradient_index 0 = 0 ∧ ascii_gradients[gradient_index 0]? = some 32 ∧
    gradient_index 255 = 69 ∧ ascii_gradients[gradient_index 255]? = some 36 := by
  have h1 : gradient_index y ≤ 69 := by
    have h2 : y * (ascii_size - 1) ≤ 255 * 69 := by
      have : ascii_size - 1 = 69 := by decide
      rw [this]
      exact Nat.mul_le_mul_right _ hy
    calc gradient_index y ≤ 255 * 69 / 255 := Nat.div_le_div_right h2
    _ = 69 := by norm_num
  refine ⟨h1, ?_, by decide, by decide, by decide, by decide⟩
  have : ascii_gradients.length = 70 := by decide
  omega

theorem c4_glyph_mapping_witness :
    gradient_index 128 ≤ 69 ∧ gradient_index 128 < ascii_gradients.length ∧
    gradient_index 0 = 0 ∧ ascii_gradients[gradient_index 0]? = some 32 ∧
    gradient_index 255 = 69 ∧ ascii_gradients[gradient_index 255]? = some 36 :=
  c4_glyph_mapping 128 (by decide)

/-! ## C9: parser cursor contract -/

/-- C9: `new_vidtxt_info` returns NULL whenever the stream's cursor is
not at position 0, and every successful return leaves the cursor at
byte 64, the first byte of the embedded audio blob. -/
theorem c9_cursor_contract (pos0 : ℕ) (bytes : List ℕ) :
    (pos0 ≠ 0 → new_vidtxt_info pos0 bytes = none) ∧
    (∀ info fpos, new_vidtxt_info pos0 bytes = some (info, fpos) → fpos = 64) := by
  constructor
  · intro h
    simp [new_vidtxt_info, h]
  · intro info fpos h
    simp only [new_vidtxt_info, VIDTXT_HEADER_SIZE] at h
    split_ifs at h <;> simp_all

theorem c9_cursor_contract_witness :
    new_vidtxt_info 5 (dump_header 80 25 4627448617123184640 0) = none ∧
    (64 : ℕ) = 64 :=
  ⟨(c9_cursor_contract 5 (dump_header 80 25 4627448617123184640 0)).1
      (by decide),
   (c9_cursor_contract 0 (dump_header 80 25 4627448617123184640 0)).2
      ⟨64, 80, 25, 4627448617123184640, 0, 79, 24, 0,
        durationOf 0 4627448617123184640⟩ 64 rfl⟩

/-! ## C3: draw-error tolerance -/

set_option maxRecDepth 4096 in
/-- C3: the claim fails on the code. On every frame whose draw failed
both loops run `draw_errors++; continue;`, skipping the
`draw_errors >= DRAW_ERROR_TOLERANCE` check, so 257 consecutive failing
frames leave both loops still iterating with `draw_errors = 257` and no
fatal exit; in `file_print_frames` a later successful frame resets the
counter to 0 through the row loop before the check can see it, so the
fatal branch is unreachable there, while in `render_frames` the first
successfully drawn frame after the count reached 256 does take the
fatal branch (the failures need not be consecutive). -/
theorem c3_draw_tolerance :
    (pfRun initDrawState
        (List.replicate 257 ⟨[some false], none⟩)).fatal = false ∧
    (pfRun initDrawState
        (List.replicate 257 ⟨[some false], none⟩)).draw_errors = 257 ∧
    (rfRun initDrawState (List.replicate 257 (some false))).fatal = false ∧
    (rfRun initDrawState (List.replicate 257 (some false))).draw_errors = 257 ∧
    (pfRun initDrawState
        (List.replicate 257 ⟨[some false], none⟩ ++
          [⟨[some true], none⟩])).fatal = false ∧
    (pfRun initDrawState
        (List.replicate 257 ⟨[some false], none⟩ ++
          [⟨[some true], none⟩])).draw_errors = 0 ∧
    (rfRun initDrawState
        (List.replicate 257 (some false) ++ [some true])).fatal = true := by
  decide

/-! ## C5: audio frame sizing -/

theorem drainLoopAux_eq (fs : ℕ) (hfs : 1 ≤ fs) :
    ∀ fuel fifo, fifo ≤ fuel →
      drainLoopAux fs fuel fifo = (List.replicate (fifo / fs) fs, fifo % fs) := by
  intro fuel
  induction fuel with
  | zero =>
    intro fifo hfifo
    have h0 : fifo = 0 := by omega
    subst h0
    simp [drainLoopAux]
  | succ fuel ih =>
    intro fifo hfifo
    by_cases h : fs ≤ fifo
    · rw [drainLoopAux, if_pos h, ih (fifo - fs) (by omega)]
      rw [Nat.div_eq_sub_div (by omega) h, Nat.mod_eq_sub_mod h]
      simp [List.replicate_succ]
    · rw [drainLoopAux, if_neg h]
      rw [Nat.div_eq_of_lt (by omega), Nat.mod_eq_of_lt (by omega)]
      simp

theorem drainLoop_eq (fs fifo : ℕ) (hfs : 1 ≤ fs) :
    drainLoop fs fifo = (List.replicate (fifo / fs) fs, fifo % fs) :=
  drainLoopAux_eq fs hfs fifo fifo le_rfl

theorem processChunks_spec (fs : ℕ) (hfs : 1 ≤ fs) (chunks : List ℕ) :
    ∀ fifo, fifo < fs →
      (∀ n ∈ (processChunks fs fifo chunks).1, n = fs) ∧
      ((processChunks fs fifo chunks).1).sum + (processChunks fs fifo chunks).2 =
        fifo + chunks.sum ∧
      (processChunks fs fifo chunks).2 < fs := by
  induction chunks with
  | nil =>
    intro fifo hfifo
    refine ⟨by simp [processChunks], by simp [processChunks], hfifo⟩
  | cons c rest ih =>
    intro fifo hfifo
    have hpc : processChunk fs fifo c =
        (List.replicate ((fifo + c) / fs) fs, (fifo + c) % fs) :=
      drainLoop_eq fs (fifo + c) hfs
    have hmod : (fifo + c) % fs < fs := Nat.mod_lt _ (by omega)
    obtain ⟨ihm, ihs, ihlt⟩ := ih ((fifo + c) % fs) hmod
    refine ⟨?_, ?_, ?_⟩
    · intro n hn
      simp only [processChunks, hpc, List.mem_append] at hn
      rcases hn with hn | hn
      · exact List.eq_of_mem_replicate hn
      · exact ihm n hn
    · simp only [processChunks, hpc, List.sum_append, List.sum_cons]
      rw [List.sum_replicate, smul_eq_mul]
      have hdm := Nat.div_add_mod (fifo + c) fs
      have hcm : fs * ((fifo + c) / fs) = ((fifo + c) / fs) * fs :=
        Nat.mul_comm _ _
      omega
    · simpa [processChunks, hpc] using ihlt

theorem finalDrain_mem (fs fifo : ℕ) (hfs : 1 ≤ fs) :
    ∀ n ∈ (finalDrain fs fifo).1, n = fs := by
  intro n hn
  unfold finalDrain at hn
  by_cases h1 : 0 < fifo
  · rw [if_pos h1] at hn
    by_cases h2 : fifo < fs
    · rw [if_pos h2, drainLoop_eq fs _ hfs] at hn
      exact List.eq_of_mem_replicate hn
    · rw [if_neg h2, drainLoop_eq fs _ hfs] at hn
      exact List.eq_of_mem_replicate hn
  · rw [if_neg h1] at hn
    simp at hn

theorem finalDrain_sum (fs fifo : ℕ) (hfs : 1 ≤ fs) (hlt : fifo < fs) :
    ((finalDrain fs fifo).1).sum = if fifo = 0 then 0 else fs := by
  unfold finalDrain
  by_cases h1 : 0 < fifo
  · rw [if_pos h1, if_pos hlt, drainLoop_eq fs _ hfs]
    have hpad : fifo + (fs - fifo) = fs := by omega
    rw [hpad, Nat.div_self (by omega)]
    rw [if_neg (by omega)]
    simp
  · rw [if_neg h1, if_pos (by omega)]
    simp

theorem ceil_mul (fs s : ℕ) (hfs : 1 ≤ fs) :
    fs * ((s + fs - 1) / fs) = s - s % fs + (if s % fs = 0 then 0 else fs) := by
  have h := Nat.div_add_mod s fs
  by_cases hz : s % fs = 0
  · rw [if_pos hz]
    have e1 : (fs - 1) / fs = 0 := Nat.div_eq_of_lt (by omega)
    have hdiv : (s + fs - 1) / fs = s / fs := by
      rw [show s + fs - 1 = fs * (s / fs) + (fs - 1) by omega,
        Nat.mul_add_div (by omega), e1]
      omega
    rw [hdiv]
    omega
  · rw [if_neg hz]
    have hmlt : s % fs < fs := Nat.mod_lt _ (by omega)
    have hexp : fs * (s / fs + 1) = fs * (s / fs) + fs := by ring
    have e2 : (s % fs - 1) / fs = 0 := Nat.div_eq_of_lt (by omega)
    have hdiv : (s + fs - 1) / fs = s / fs + 1 := by
      rw [show s + fs - 1 = fs * (s / fs + 1) + (s % fs - 1) by omega,
        Nat.mul_add_div (by omega), e2]
    rw [hdiv]
    omega

theorem dumpAudioFrames_eq (raw : ℤ) (chunks : List ℕ) :
    dumpAudioFrames raw chunks =
      (processChunks (encFrameSize raw) 0 chunks).1 ++
        (finalDrain (encFrameSize raw)
          (processChunks (encFrameSize raw) 0 chunks).2).1 := rfl

theorem encFrameSize_pos (raw : ℤ) : 1 ≤ encFrameSize raw := by
  unfold encFrameSize
  split
  · omega
  · rename_i h
    omega

/-- C5: in the persist pipeline, every frame handed to the MP3 encoder
carries exactly `enc_frame_size` samples (frames are drained from the
FIFO only while at least a full frame is buffered, and the end-of-stream
remainder is silence-padded to a full frame), and the total number of
encoded samples is the input sample count rounded up to a whole number
of frames, so no input sample is dropped and the final frame is also
full-size. -/
theorem c5_audio_frame_sizing (raw : ℤ) (chunks : List ℕ) :
    (∀ n ∈ dumpAudioFrames raw chunks, n = encFrameSize raw) ∧
    (dumpAudioFrames raw chunks).sum =
      encFrameSize raw *
        ((chunks.sum + encFrameSize raw - 1) / encFrameSize raw) := by
  have hfs : 1 ≤ encFrameSize raw := encFrameSize_pos raw
  obtain ⟨hm, hsum, hlt⟩ :=
    processChunks_spec (encFrameSize raw) hfs chunks 0 (by omega)
  constructor
  · intro n hn
    rw [dumpAudioFrames_eq] at hn
    rcases List.mem_append.mp hn with hn | hn
    · exact hm n hn
    · exact finalDrain_mem _ _ hfs n hn
  · rw [dumpAudioFrames_eq, List.sum_append,
      finalDrain_sum _ _ hfs hlt, ceil_mul _ _ hfs]
    set P := processChunks (encFrameSize raw) 0 chunks
    have hall : P.1 = List.replicate P.1.length (encFrameSize raw) :=
      List.eq_replicate_of_mem (fun b hb => hm b hb)
    have hps : P.1.sum = P.1.length * encFrameSize raw := by
      conv_lhs => rw [hall]
      rw [List.sum_replicate, smul_eq_mul]
    have hmod : chunks.sum % encFrameSize raw = P.2 := by
      have : chunks.sum = encFrameSize raw * P.1.length + P.2 := by
        have hcm : encFrameSize raw * P.1.length =
            P.1.length * encFrameSize raw := Nat.mul_comm _ _
        omega
      rw [this, Nat.mul_add_mod, Nat.mod_eq_of_lt hlt]
    rw [hmod]
    omega

theorem c5_audio_frame_sizing_witness :
    (∀ n ∈ dumpAudioFrames 0 [1000, 500], n = encFrameSize 0) ∧
    (dumpAudioFrames 0 [1000, 500]).sum =
      encFrameSize 0 * ((([1000, 500] : List ℕ).sum + encFrameSize 0 - 1) /
        encFrameSize 0) :=
  c5_audio_frame_sizing 0 [1000, 500]

/-! ## C7: routing rule -/

/-- The magic comparison in `main` identifies exactly the files whose
first six bytes are the VIDTXT magic: `be64toh` of the zero-initialised
8-byte buffer equals `0x5649445458540000` iff the (at most six) bytes
read are precisely `"VIDTXT"`. -/
theorem sig_eq_magic_iff (bs : List ℕ) (hb : ∀ b ∈ bs, b < 256) :
    beOfBytes (padTo8 (bs.take 6)) = VIDTXT_MAGIC ↔ bs.take 6 = magicBytes := by
  rcases bs with _ | ⟨b0, _ | ⟨b1, _ | ⟨b2, _ | ⟨b3, _ | ⟨b4, _ | ⟨b5, rest⟩⟩⟩⟩⟩⟩
  · constructor
    · intro h
      exfalso
      have h2 : ((((((((0 * 256 + 0) * 256 + 0) * 256 + 0) * 256 + 0) * 256 + 0) * 256 + 0) * 256 + 0) * 256 + 0) = 0x5649445458540000 := h
      omega
    · intro h
      simp [magicBytes] at h
  ·
    have h0 := hb b0 (by simp)
    constructor
    · intro h
      exfalso
      have hv : ((((((((0 * 256 + b0) * 256 + 0) * 256 + 0) * 256 + 0) * 256 + 0) * 256 + 0) * 256 + 0) * 256 + 0) = 0x5649445458540000 := h
      omega
    · intro h
      simp [magicBytes] at h
  ·
    have h0 := hb b0 (by simp)
    have h1 := hb b1 (by simp)
    constructor
    · intro h
      exfalso
      have hv : ((((((((0 * 256 + b0) * 256 + b1) * 256 + 0) * 256 + 0) * 256 + 0) * 256 + 0) * 256 + 0) * 256 + 0) = 0x5649445458540000 := h
      omega
    · intro h
      simp [magicBytes] at h
  ·
    have h0 := hb b0 (by simp)
    have h1 := hb b1 (by simp)
    have h2 := hb b2 (by simp)
    constructor
    · intro h
      exfalso
      have hv : ((((((((0 * 256 + b0) * 256 + b1) * 256 + b2) * 256 + 0) * 256 + 0) * 256 + 0) * 256 + 0) * 256 + 0) = 0x5649445458540000 := h
      omega
    · intro h
      simp [magicBytes] at h
  ·
    have h0 := hb b0 (by simp)
    have h1 := hb b1 (by simp)
    have h2 := hb b2 (by simp)
    have h3 := hb b3 (by simp)
    constructor
    · intro h
      exfalso
      have hv : ((((((((0 * 256 + b0) * 256 + b1) * 256 + b2) * 256 + b3) * 256 + 0) * 256 + 0) * 256 + 0) * 256 + 0) = 0x5649445458540000 := h
      omega
    · intro h
      simp [magicBytes] at h
  ·
    have h0 := hb b0 (by simp)
    have h1 := hb b1 (by simp)
    have h2 := hb b2 (by simp)
    have h3 := hb b3 (by simp)
    have h4 := hb b4 (by simp)
    constructor
    · intro h
      exfalso
      have hv : ((((((((0 * 256 + b0) * 256 + b1) * 256 + b2) * 256 + b3) * 256 + b4) * 256 + 0) * 256 + 0) * 256 + 0) = 0x5649445458540000 := h
      omega
    · intro h
      simp [magicBytes] at h
  ·
    have h0 := hb b0 (by simp)
    have h1 := hb b1 (by simp)
    have h2 := hb b2 (by simp)
    have h3 := hb b3 (by simp)
    have h4 := hb b4 (by simp)
    have h5 := hb b5 (by simp)
    constructor
    · intro h
      have hv : ((((((((0 * 256 + b0) * 256 + b1) * 256 + b2) * 256 + b3) * 256 + b4) * 256 + b5) * 256 + 0) * 256 + 0) = 0x5649445458540000 := h
      show [b0, b1, b2, b3, b4, b5] = magicBytes
      simp only [magicBytes, List.cons.injEq, and_true]
      omega
    · intro h
      rw [h]
      decide

/-- C7: for every input path, a path containing the substring `"://"`
dispatches the live renderer (the file is never read: the signature
buffer stays zero); otherwise the first six file bytes are compared to
the VIDTXT magic, the player runs exactly on a match and every other
value (hence also every single-bit corruption of the magic) routes to
the renderer; a `--dump` dispatch is never rerouted. -/
theorem c7_routing (path fileBytes : List ℕ) (hb : ∀ b ∈ fileBytes, b < 256) :
    (includes_match path urlMarker = 1 →
      mainRoute .file_print_frames path fileBytes = .render_frames) ∧
    (includes_match path urlMarker ≠ 1 → fileBytes.take 6 = magicBytes →
      mainRoute .file_print_frames path fileBytes = .file_print_frames) ∧
    (includes_match path urlMarker ≠ 1 → fileBytes.take 6 ≠ magicBytes →
      mainRoute .file_print_frames path fileBytes = .render_frames) ∧
    mainRoute .dump_frames path fileBytes = .dump_frames := by
  refine ⟨?_, ?_, ?_, by simp [mainRoute]⟩
  · intro hurl
    simp [mainRoute, hurl]
  · intro hurl hmagic
    have hsig : beOfBytes (padTo8 (fileBytes.take 6)) = VIDTXT_MAGIC :=
      (sig_eq_magic_iff fileBytes hb).mpr hmagic
    simp [mainRoute, hurl, hsig]
  · intro hurl hmagic
    have hsig : beOfBytes (padTo8 (fileBytes.take 6)) ≠ VIDTXT_MAGIC :=
      fun h => hmagic ((sig_eq_magic_iff fileBytes hb).mp h)
    simp [mainRoute, hurl, hsig]

theorem c7_routing_witness :
    mainRoute .file_print_frames
      [104, 116, 116, 112, 58, 47, 47, 120] [86, 73, 68, 84, 88, 84] =
      .render_frames ∧
    mainRoute .file_print_frames [118, 46, 109, 112, 52]
      [86, 73, 68, 84, 88, 84, 1, 2] = .file_print_frames ∧
    mainRoute .file_print_frames [118, 46, 109, 112, 52]
      [87, 73, 68, 84, 88, 84, 1, 2] = .render_frames ∧
    mainRoute .dump_frames [118, 46, 109, 112, 52]
      [86, 73, 68, 84, 88, 84, 1, 2] = .dump_frames :=
  ⟨(c7_routing [104, 116, 116, 112, 58, 47, 47, 120] [86, 73, 68, 84, 88, 84]
      (by decide)).1 (by decide),
   (c7_routing [118, 46, 109, 112, 52] [86, 73, 68, 84, 88, 84, 1, 2]
      (by decide)).2.1 (by decide) (by decide),
   (c7_routing [118, 46, 109, 112, 52] [87, 73, 68, 84, 88, 84, 1, 2]
      (by decide)).2.2.1 (by decide) (by decide),
   (c7_routing [118, 46, 109, 112, 52] [86, 73, 68, 84, 88, 84, 1, 2]
      (by decide)).2.2.2⟩

/-! ## C6: custom I/O adapter contract -/

theorem int32cast_eq (i : ℤ) (h1 : -(2 ^ 31) ≤ i) (h2 : i < 2 ^ 31) :
    int32cast i = i := by
  unfold int32cast
  split_ifs with h <;> omega

/-- C6: `avio_custom_read` fails fast with an error when the underlying
cursor sits below offset 64; with the cursor inside the audio window, a
request that would exceed the remaining window `audio_size - (pos - 64)`
is clipped to exactly that remainder; and a request made with the cursor
at or past the end of the window returns the canonical end-of-stream
value (`AVERROR_EOF`), not an error. -/
theorem c6_avio_contract (audio_size file_len pos req : ℕ)
    (hpos : pos < 2 ^ 31) (haud : audio_size < 2 ^ 31) :
    (pos < 64 → avio_custom_read audio_size file_len pos req = .errUnknown) ∧
    (64 ≤ pos → pos - 64 ≤ audio_size → audio_size < (pos - 64) + req →
      avioClippedSize audio_size (pos - 64) req = audio_size - (pos - 64)) ∧
    (64 ≤ pos → audio_size ≤ pos - 64 →
      avio_custom_read audio_size file_len pos req = .eof) := by
  refine ⟨?_, ?_, ?_⟩
  · intro h
    have hc : int32cast ((pos : ℤ) - 64) = (pos : ℤ) - 64 :=
      int32cast_eq _ (by omega) (by omega)
    unfold avio_custom_read
    rw [hc, if_pos (by omega)]
  · intro h1 h2 h3
    unfold avioClippedSize
    rw [if_pos (by omega)]
    have hu : u64sub audio_size (pos - 64) = audio_size - (pos - 64) :=
      u64sub_of_le _ _ h2 (by omega)
    rw [hu]
    have hi : int32cast ((audio_size - (pos - 64) : ℕ) : ℤ) =
        ((audio_size - (pos - 64) : ℕ) : ℤ) :=
      int32cast_eq _ (by omega) (by omega)
    rw [hi]
    unfold sizeTcast
    omega
  · intro h1 h2
    have hc : int32cast ((pos : ℤ) - 64) = (pos : ℤ) - 64 :=
      int32cast_eq _ (by omega) (by omega)
    unfold avio_custom_read
    rw [hc, if_neg (by omega)]
    rw [if_pos (Or.inr (by omega))]

theorem c6_avio_contract_witness :
    avio_custom_read 100 200 10 50 = .errUnknown ∧
    avioClippedSize 100 36 80 = 64 ∧
    avio_custom_read 100 300 164 10 = .eof :=
  ⟨(c6_avio_contract 100 200 10 50 (by decide) (by decide)).1 (by decide),
   (c6_avio_contract 100 200 100 80 (by decide) (by decide)).2.1
      (by decide) (by decide) (by decide),
   (c6_avio_contract 100 300 164 10 (by decide) (by decide)).2.2
      (by decide) (by decide)⟩

/-! ## C1: header round-trip -/

/-- C1 counterexample: the quadruple (columns 80, lines 25, fps pattern
1, audio_size 0) has columns ≥ 2, lines ≥ 2 and a finite positive fps
(the smallest positive subnormal double, 2^-1074), yet parsing the
serialized header yields a descriptor whose fps pattern is the
byte-swapped 2^56, not 1: the reciprocal of 2^-1074 overflows to
+infinity, so the parser discards the big-endian interpretation and
keeps the little-endian fallback. -/
theorem c1_counterexample :
    f64finPos 1 = true ∧
    (new_vidtxt_info 0 (dump_header 80 25 1 0)).map (fun p => p.1.fpsBits) =
      some (2 ^ 56) ∧
    (2 ^ 56 : ℕ) ≠ 1 := by decide

/-- C1 (amended): the round trip holds for every quadruple whose fps is
finite and positive with a reciprocal that does not round to +infinity,
provided also `(columns-1)*(lines-1)` is nonzero modulo 2^32 (otherwise
the parser's frame-count division traps): serializing and reparsing
returns the same columns, lines, fps bit pattern and audio_size. -/
theorem c1_round_trip (c l f a : ℕ) (body : List ℕ)
    (hc1 : 2 ≤ c) (hc2 : c < 2 ^ 32) (hl1 : 2 ≤ l) (hl2 : l < 2 ^ 32)
    (hf64 : f < 2 ^ 64) (ha : a < 2 ^ 64)
    (hfin : f64finPos f = true) (hrec : f64recipIsPosInf f = false)
    (hdiv : (c - 1) * (l - 1) % 2 ^ 32 ≠ 0) :
    ∃ info : VIDTXTInfo,
      new_vidtxt_info 0 (dump_header c l f a ++ body) = some (info, 64) ∧
      info.columns = c ∧ info.lines = l ∧ info.fpsBits = f ∧
      info.audio_size = a := by
  have hge : f64ge0 f = true := f64ge0_of_finPos f hfin
  have hvalid : fpsBeValid f = true := by
    unfold fpsBeValid
    rw [hge, hrec]
    rfl
  have hlt : f64lt0 f = false := f64lt0_eq_false_of_ge0 f hge
  rw [new_vidtxt_info_dump_header c l f a body hc1 hc2 hl1 hl2 hf64 ha]
  simp only [hvalid, if_true, hlt, Bool.false_eq_true, if_false]
  exact ⟨_, rfl, rfl, rfl, rfl, rfl⟩

theorem c1_round_trip_witness :
    ∃ info : VIDTXTInfo,
      new_vidtxt_info 0 (dump_header 80 25 4627448617123184640 12 ++ []) =
        some (info, 64) ∧
      info.columns = 80 ∧ info.lines = 25 ∧
      info.fpsBits = 4627448617123184640 ∧ info.audio_size = 12 :=
  c1_round_trip 80 25 4627448617123184640 12 [] (by decide) (by decide)
    (by decide) (by decide) (by decide) (by decide) (by decide) (by decide)
    (by decide)

/-! ## C2: framerate validation on parse -/

/-- C2 counterexample: a header whose stored big-endian fps is +infinity
(pattern 0x7FF0000000000000, non-finite and hence to be rejected by the
claim) is accepted: `1/+inf` is `+0.0`, not `INFINITY`, so the
validation passes and a descriptor is constructed carrying the
non-finite fps. -/
theorem c2_counterexample :
    f64isFinite 0x7FF0000000000000 = false ∧
    (new_vidtxt_info 0 (dump_header 80 25 0x7FF0000000000000 0)).map
      (fun p => p.1.fpsBits) = some 0x7FF0000000000000 := by decide

/-- C2 (amended): the parser accepts the big-endian fps exactly when it
satisfies `new_fps >= 0 && 1/new_fps != INFINITY` — a test that admits
+infinity and -0.0 and rejects positive values below roughly 2^-1024;
otherwise it warns and falls back to the little-endian interpretation of
the same eight bytes, rejecting the file only when that fallback value
compares `< 0` (so NaN, zero or +infinity fallbacks also produce a
descriptor). -/
theorem c2_fps_validation (c l f a : ℕ) (body : List ℕ)
    (hc1 : 2 ≤ c) (hc2 : c < 2 ^ 32) (hl1 : 2 ≤ l) (hl2 : l < 2 ^ 32)
    (hf64 : f < 2 ^ 64) (ha : a < 2 ^ 64) :
    (fpsBeValid f = true →
      ∃ info, new_vidtxt_info 0 (dump_header c l f a ++ body) =
          some (info, 64) ∧ info.fpsBits = f) ∧
    (fpsBeValid f = false → f64lt0 (leOfBytes (be64Bytes f)) = true →
      new_vidtxt_info 0 (dump_header c l f a ++ body) = none) ∧
    (fpsBeValid f = false → f64lt0 (leOfBytes (be64Bytes f)) = false →
      ∃ info, new_vidtxt_info 0 (dump_header c l f a ++ body) =
          some (info, 64) ∧ info.fpsBits = leOfBytes (be64Bytes f)) := by
  rw [new_vidtxt_info_dump_header c l f a body hc1 hc2 hl1 hl2 hf64 ha]
  refine ⟨?_, ?_, ?_⟩
  · intro hv
    have hge : f64ge0 f = true := by
      unfold fpsBeValid at hv
      cases hge : f64ge0 f
      · rw [hge] at hv
        simp at hv
      · rfl
    have hlt : f64lt0 f = false := f64lt0_eq_false_of_ge0 f hge
    simp only [hv, if_true, hlt, Bool.false_eq_true, if_false]
    exact ⟨_, rfl, rfl⟩
  · intro hv hltle
    simp only [hv, Bool.false_eq_true, if_false, hltle, if_true]
  · intro hv hltle
    simp only [hv, Bool.false_eq_true, if_false, hltle]
    exact ⟨_, rfl, rfl⟩

theorem c2_fps_validation_witness :
    (∃ info, new_vidtxt_info 0
        (dump_header 80 25 4627448617123184640 0 ++ []) = some (info, 64) ∧
        info.fpsBits = 4627448617123184640) ∧
    new_vidtxt_info 0 (dump_header 80 25 0x0000000000000180 0 ++ []) = none ∧
    (∃ info, new_vidtxt_info 0
        (dump_header 80 25 0x7FF8000000000000 0 ++ []) = some (info, 64) ∧
        info.fpsBits = leOfBytes (be64Bytes 0x7FF8000000000000)) :=
  ⟨(c2_fps_validation 80 25 4627448617123184640 0 [] (by decide) (by decide)
      (by decide) (by decide) (by decide) (by decide)).1 (by decide),
   (c2_fps_validation 80 25 0x0000000000000180 0 [] (by decide) (by decide)
      (by decide) (by decide) (by decide) (by decide)).2.1
      (by decide) (by decide),
   (c2_fps_validation 80 25 0x7FF8000000000000 0 [] (by decide) (by decide)
      (by decide) (by decide) (by decide) (by decide)).2.2
      (by decide) (by decide)⟩

/-! ## C8: descriptor arithmetic -/

theorem durationOf_eq (t : ℕ) (p : ℕ) (hpos : 0 < f64finiteVal p) :
    durationOf t p = (t : ℚ) / f64finiteVal p := by
  simp only [durationOf, cFmod]
  have hf : f64finiteVal p ≠ 0 := ne_of_gt hpos
  have hnn : (0 : ℚ) ≤ (t : ℚ) / f64finiteVal p :=
    div_nonneg (by positivity) (le_of_lt hpos)
  have htr : ratTrunc ((t : ℚ) / f64finiteVal p) =
      ⌊(t : ℚ) / f64finiteVal p⌋ := by
    unfold ratTrunc
    rw [if_pos hnn]
  rw [htr]
  field_simp
  ring

/-- C8: for every successfully parsed file whose audio window fits in
the file and whose print-dimension product does not overflow `uint32_t`,
the descriptor satisfies
`total_frames = (file_size - 64 - audio_size) / (print_columns *
print_lines)` with integer division, and (for a finite positive fps, in
exact arithmetic) `duration = total_frames / fps` seconds. -/
theorem c8_descriptor_arithmetic (pos0 : ℕ) (bytes : List ℕ)
    (info : VIDTXTInfo) (fpos : ℕ)
    (hparse : new_vidtxt_info pos0 bytes = some (info, fpos))
    (hbound : 64 + info.audio_size ≤ info.file_size)
    (hsize : info.file_size < 2 ^ 64)
    (hnoof : info.print_columns * info.print_lines < 2 ^ 32)
    (hfpos : 0 < f64finiteVal info.fpsBits) :
    info.total_frames =
      (info.file_size - 64 - info.audio_size) /
        (info.print_columns * info.print_lines) ∧
    info.duration = (info.total_frames : ℚ) / f64finiteVal info.fpsBits := by
  simp only [new_vidtxt_info, VIDTXT_HEADER_SIZE] at hparse
  split_ifs at hparse
  all_goals
    rw [Option.some.injEq, Prod.mk.injEq] at hparse
    obtain ⟨hinfo, hfp⟩ := hparse
    subst hinfo
    simp only at hbound hsize hnoof hfpos ⊢
    refine ⟨?_, durationOf_eq _ _ hfpos⟩
    have hinner : u64sub bytes.length 64 = bytes.length - 64 :=
      u64sub_of_le _ _ (by omega) (by omega)
    rw [Nat.mod_eq_of_lt (by omega), hinner,
      u64sub_of_le _ _ (by omega) (by omega)]

theorem c8_descriptor_arithmetic_witness :
    (2 : ℕ) = (72 - 64 - 0) / (2 * 2) ∧
    durationOf 2 4627448617123184640 =
      (2 : ℚ) / f64finiteVal 4627448617123184640 := by
  have hparse : new_vidtxt_info 0
      (dump_header 3 3 4627448617123184640 0 ++
        [65, 66, 67, 68, 69, 70, 71, 72]) =
      some (⟨([65, 66, 67, 68, 69, 70, 71, 72] : List ℕ).length + 64, 3, 3,
        4627448617123184640, 0, 3 - 1, 3 - 1,
        u64sub (u64sub (([65, 66, 67, 68, 69, 70, 71, 72] : List ℕ).length +
          64) 64) 0 / ((3 - 1) * (3 - 1) % 2 ^ 32),
        durationOf (u64sub (u64sub
          (([65, 66, 67, 68, 69, 70, 71, 72] : List ℕ).length + 64) 64) 0 /
          ((3 - 1) * (3 - 1) % 2 ^ 32)) 4627448617123184640⟩, 64) := by
    rw [new_vidtxt_info_dump_header 3 3 4627448617123184640 0
      [65, 66, 67, 68, 69, 70, 71, 72] (by norm_num) (by norm_num)
      (by norm_num) (by norm_num) (by norm_num) (by norm_num)]
    simp [show fpsBeValid 4627448617123184640 = true from by decide,
      show f64lt0 4627448617123184640 = false from by decide]
  have h := c8_descriptor_arithmetic 0
    (dump_header 3 3 4627448617123184640 0 ++ [65, 66, 67, 68, 69, 70, 71, 72])
    _ 64 hparse (by decide) (by decide) (by decide)
    (by norm_num [f64finiteVal, f64mag, f64sign, f64exp, f64frac])
  refine ⟨by norm_num, ?_⟩
  have h2 := h.2
  norm_num [u64sub] at h2
  exact h2

/-! ## C10: missing audio_size bound check -/

/-- C10: the parser never checks `audio_size <= file_size - 64`. For a
header-valid file whose declared audio_size exceeds the bytes that
follow the header, `new_vidtxt_info` still succeeds, and the frame count
comes from the wrapped unsigned 64-bit difference: `total_frames =
(2^64 - (audio_size - (file_size - 64))) / ((columns-1)*(lines-1))`, an
enormous value instead of an error. -/
theorem c10_missing_bound (c l f a : ℕ) (body : List ℕ)
    (hc1 : 2 ≤ c) (hc2 : c < 2 ^ 32) (hl1 : 2 ≤ l) (hl2 : l < 2 ^ 32)
    (hf64 : f < 2 ^ 64) (ha : a < 2 ^ 64)
    (hlen : body.length + 64 < 2 ^ 64)
    (hvalid : fpsBeValid f = true)
    (hover : body.length < a) :
    ∃ info, new_vidtxt_info 0 (dump_header c l f a ++ body) =
        some (info, 64) ∧
      info.total_frames =
        (2 ^ 64 - (a - body.length)) / ((c - 1) * (l - 1) % 2 ^ 32) := by
  have hge : f64ge0 f = true := by
    unfold fpsBeValid at hvalid
    cases hge : f64ge0 f
    · rw [hge] at hvalid
      simp at hvalid
    · rfl
  have hlt : f64lt0 f = false := f64lt0_eq_false_of_ge0 f hge
  rw [new_vidtxt_info_dump_header c l f a body hc1 hc2 hl1 hl2 hf64 ha]
  simp only [hvalid, if_true, hlt, Bool.false_eq_true, if_false]
  refine ⟨_, rfl, ?_⟩
  simp only
  have h1 : u64sub (u64sub (body.length + 64) 64) a =
      2 ^ 64 - (a - body.length) := by
    unfold u64sub
    omega
  rw [h1]

theorem c10_missing_bound_witness :
    ∃ info, new_vidtxt_info 0
        (dump_header 3 3 4627448617123184640 100 ++ []) = some (info, 64) ∧
      info.total_frames = (2 ^ 64 - 100) / 4 := by
  obtain ⟨info, h1, h2⟩ := c10_missing_bound 3 3 4627448617123184640 100 []
    (by decide) (by decide) (by decide) (by decide) (by decide) (by decide)
    (by decide) (by decide) (by decide)
  refine ⟨info, h1, ?_⟩
  rw [h2]
  norm_num


end Vidtty
